import Mathlib

/-!
Verification development for the fractal rendering core of `fractal.py`
(Fractal Dream Weaver).  The numeric pipeline — plane mapping, escape-time
engine, palette coloring, swirl filter geometry, layer compositing and the
animation sequencer — is shallowly embedded here.

Modeling conventions:
* Python/NumPy floating point numbers are modeled by exact rationals `ℚ`
  wherever the code only adds, multiplies, divides and compares
  (plane mapper, escape-time engine, palette mapper, compositor);
  transcendental code (the swirl filter: sqrt, arctan2, cos, sin, exp)
  is modeled over `ℝ` using `Complex.abs`/`Complex.arg` for the polar
  decomposition computed by `np.sqrt`/`np.arctan2`.
* NumPy arrays are modeled as functions from indices; an `height × width`
  array becomes `ℕ → ℕ → α` with the dimensions carried separately where
  they matter.  Elementwise whole-array operations become per-pixel
  functions, which is faithful because every array operation in the
  pipeline is elementwise (no cross-pixel dependency).
* A NumPy float division `0 / 0` (palette normalization when
  `max_iter = 0`) yields NaN, and every comparison with NaN is false.
  Normalized values are therefore modeled as `Option ℚ` with `none`
  standing for NaN; both comparisons used by the code return `false`
  on `none`.
* External PIL primitives (LANCZOS resizing, the fixed convolution
  filters, GIF palette quantization) are opaque library calls; they are
  modeled as abstract total functions passed in as parameters.
-/

/-! ### Complex numbers with exact rational components

The code iterates NumPy complex numbers; we embed them as pairs of
rationals.  The escape test `np.abs(z) > 2` is embedded as
`normSq z > 4`, which is equivalent in exact arithmetic. -/

structure Cplx where
  re : ℚ
  im : ℚ
deriving DecidableEq

namespace Cplx

def add (a b : Cplx) : Cplx := ⟨a.re + b.re, a.im + b.im⟩

def mul (a b : Cplx) : Cplx := ⟨a.re * b.re - a.im * b.im, a.re * b.im + a.im * b.re⟩

/-- Integer power by repeated multiplication.  The source computes
`z ** power` with `power` a float slider value; the development models the
integer-exponent case (the default `power = 2.0` and every preset). -/
def pow (a : Cplx) : ℕ → Cplx
  | 0 => ⟨1, 0⟩
  | n + 1 => (pow a n).mul a

def normSq (a : Cplx) : ℚ := a.re * a.re + a.im * a.im

/-- Embeds a rational as a complex value (used for the cap `z[diverged] = 2`). -/
def ofQ (q : ℚ) : Cplx := ⟨q, 0⟩

end Cplx

/-! ### Plane mapper (`_generate_fractal_map`, lines 610-632)

`np.linspace(a, b, n)` places `n` evenly spaced samples with step
`(b - a) / (n - 1)`.  For `n = 1` NumPy returns `[a]`; the rational
junk value `(b - a) / 0 = 0` makes the same formula yield `a` there,
so no special case is needed. -/

def linspace (a b : ℚ) (n : ℕ) (i : ℕ) : ℚ := a + i * ((b - a) / ((n : ℚ) - 1))

structure ViewWindow where
  width : ℕ
  height : ℕ
  zoom : ℚ
  centerX : ℚ
  centerY : ℚ

namespace ViewWindow

/-- Aspect ratio `height / width if width > 0 and height > 0 else 1.0`. -/
def aspectRatio (v : ViewWindow) : ℚ :=
  if 0 < v.width ∧ 0 < v.height then (v.height : ℚ) / (v.width : ℚ) else 1

def xRange (v : ViewWindow) : ℚ := 5 / v.zoom

def yRange (v : ViewWindow) : ℚ := v.xRange * v.aspectRatio

def xMin (v : ViewWindow) : ℚ := v.centerX - v.xRange / 2

def xMax (v : ViewWindow) : ℚ := v.centerX + v.xRange / 2

def yMin (v : ViewWindow) : ℚ := v.centerY - v.yRange / 2

def yMax (v : ViewWindow) : ℚ := v.centerY + v.yRange / 2

/-- Real part of the plane coordinate of pixel column `px`:
`x = np.linspace(x_min, x_max, width)` indexed at `px`. -/
def planeX (v : ViewWindow) (px : ℕ) : ℚ := linspace v.xMin v.xMax v.width px

/-- Imaginary part of the plane coordinate of pixel row `py`:
`y = np.linspace(y_min, y_max, height)` indexed at `py` (row 0 of the
meshgrid, hence of the rendered image, carries `y_min`). -/
def planeY (v : ViewWindow) (py : ℕ) : ℚ := linspace v.yMin v.yMax v.height py

/-- The complex coordinate assigned to pixel `(px, py)` by the meshgrid. -/
def planeCoord (v : ViewWindow) (px py : ℕ) : Cplx := ⟨v.planeX px, v.planeY py⟩

/-- Modelled from the spec: the y mapping the specification prescribes,
`y = y_max - py / (height - 1) * (y_max - y_min)` (pixel row increasing
downward maps to decreasing imaginary part).  Stated only for comparison
with `planeY`, which embeds the code. -/
def specPlaneY (v : ViewWindow) (py : ℕ) : ℚ :=
  v.yMax - (py : ℚ) / ((v.height : ℚ) - 1) * (v.yMax - v.yMin)

end ViewWindow

/-! ### Escape-time engine (`_generate_fractal_map`, lines 634-657)

The engine is embedded per pixel: the NumPy loop applies the same
elementwise update to every pixel each iteration, with a boolean mask
remembering which pixels have not yet diverged. -/

/-- Per-pixel engine state: current `z`, the mask bit (`true` while the
pixel has not yet diverged) and the recorded iteration count (initially
`max_iter` from `np.full((height, width), max_iter)`). -/
structure PixState where
  z : Cplx
  m : Bool
  it : ℕ
deriving DecidableEq

def familyNames : List String := ["Mandelbrot", "Julia", "Burning Ship", "Tricorn"]

/-- Family-specific pre-transform applied before the power step:
Burning Ship takes componentwise absolute values, Tricorn conjugates. -/
def preT (family : String) (z : Cplx) : Cplx :=
  if family = "Burning Ship" then ⟨|z.re|, |z.im|⟩
  else if family = "Tricorn" then ⟨z.re, -z.im⟩
  else z

/-- One iteration of the escape loop at iteration index `i`:
`z = z ** power + c`; where `|z| > 2`, record `i` into pixels still
masked, clear the mask, and cap `z` to `2`. -/
def engineStep (family : String) (power : ℕ) (c : Cplx) (s : PixState) (i : ℕ) : PixState :=
  let z2 := ((preT family s.z).pow power).add c
  let d : Bool := decide (4 < z2.normSq)
  { z := if d then Cplx.ofQ 2 else z2
    m := if d then false else s.m
    it := if d && s.m then i else s.it }

/-- Initial `(z, c)` by family: Julia seeds `z` with the pixel coordinate
and uses the constant `c`; the other families seed `z = 0`, `c = coord`. -/
def initZC (family : String) (juliaC coord : Cplx) : Cplx × Cplx :=
  if family = "Julia" then (coord, juliaC) else (⟨0, 0⟩, coord)

/-- State of one pixel after the first `n` iterations of
`for i in range(max_iter)`. -/
def engineIter (family : String) (power : ℕ) (c : Cplx) (maxIter : ℕ) (z0 : Cplx)
    (n : ℕ) : PixState :=
  (List.range n).foldl (engineStep family power c) ⟨z0, true, maxIter⟩

/-- The iteration-count recorded for one pixel (`iter_map[py, px]`). -/
def escapeVal (family : String) (power maxIter : ℕ) (juliaC coord : Cplx) : ℕ :=
  let zc := initZC family juliaC coord
  (engineIter family power zc.2 maxIter zc.1 maxIter).it

/-- The iteration field, as a function of pixel position; `some` exactly
when the fractal family is one of the four recognized names (otherwise
the code raises `ValueError("Invalid fractal type")`). -/
def genFractalMap (v : ViewWindow) (family : String) (power maxIter : ℕ)
    (juliaC : Cplx) : Option (ℕ → ℕ → ℕ) :=
  if family = "Mandelbrot" ∨ family = "Burning Ship" ∨ family = "Tricorn" ∨ family = "Julia"
  then some (fun py px => escapeVal family power maxIter juliaC (v.planeCoord px py))
  else none

/-! ### Palette mapper (`_color_fractal`, lines 659-728)

Each named landscape defines `levels` (gradient stop positions) and
`cmaps` (the stop colors).  The if/elif chain has no else branch: an
unrecognized name leaves `levels`/`cmaps` unbound and the subsequent
loop raises `UnboundLocalError`; this is embedded by returning `none`.

Stop colors are kept as rationals because the interpolation
`cmaps[i] + frac * (cmaps[i+1] - cmaps[i])` is float arithmetic; the
assignment into the `uint8` array truncates, which on the in-range
values produced here is the floor. -/

structure Stop where
  level : ℚ
  r : ℚ
  g : ℚ
  b : ℚ
deriving DecidableEq

def forestStops : List Stop :=
  [⟨0, 0, 0, 128⟩, ⟨3/10, 34, 139, 34⟩, ⟨6/10, 139, 69, 19⟩, ⟨1, 255, 255, 255⟩]

def cityStops : List Stop :=
  [⟨0, 50, 50, 50⟩, ⟨4/10, 100, 100, 100⟩, ⟨7/10, 200, 0, 0⟩, ⟨1, 255, 255, 255⟩]

def dreamStops : List Stop :=
  [⟨0, 255, 0, 0⟩, ⟨1/4, 255, 165, 0⟩, ⟨1/2, 255, 255, 0⟩, ⟨3/4, 0, 128, 0⟩, ⟨1, 0, 0, 255⟩]

def oceanStops : List Stop :=
  [⟨0, 0, 0, 50⟩, ⟨3/10, 0, 100, 200⟩, ⟨6/10, 100, 200, 255⟩, ⟨1, 255, 255, 255⟩]

def desertStops : List Stop :=
  [⟨0, 200, 100, 0⟩, ⟨3/10, 255, 200, 100⟩, ⟨6/10, 255, 150, 50⟩, ⟨1, 255, 255, 200⟩]

def spaceStops : List Stop :=
  [⟨0, 0, 0, 0⟩, ⟨3/10, 50, 0, 100⟩, ⟨6/10, 100, 0, 200⟩, ⟨1, 200, 100, 255⟩]

def rainbowStops : List Stop :=
  [⟨0, 255, 0, 0⟩, ⟨16/100, 255, 165, 0⟩, ⟨33/100, 255, 255, 0⟩, ⟨1/2, 0, 128, 0⟩,
   ⟨66/100, 0, 0, 255⟩, ⟨83/100, 75, 0, 130⟩, ⟨1, 148, 0, 211⟩]

def fireStops : List Stop :=
  [⟨0, 50, 0, 0⟩, ⟨4/10, 200, 0, 0⟩, ⟨8/10, 255, 140, 0⟩, ⟨1, 255, 255, 200⟩]

def iceStops : List Stop :=
  [⟨0, 0, 0, 100⟩, ⟨4/10, 0, 100, 200⟩, ⟨8/10, 150, 200, 255⟩, ⟨1, 255, 255, 255⟩]

def infernoStops : List Stop :=
  [⟨0, 0, 0, 4⟩, ⟨1/4, 87, 15, 109⟩, ⟨1/2, 187, 55, 84⟩, ⟨3/4, 249, 142, 50⟩, ⟨1, 255, 255, 85⟩]

def paletteNames : List String :=
  ["Forest", "City", "Dream", "Ocean", "Desert", "Space", "Rainbow", "Fire", "Ice", "Inferno"]

/-- The if/elif chain on `landscape`; `none` models the fall-through with
`levels`/`cmaps` unbound (the code then raises `UnboundLocalError`). -/
def lookupPalette (landscape : String) : Option (List Stop) :=
  if landscape = "Forest" then some forestStops
  else if landscape = "City" then some cityStops
  else if landscape = "Dream" then some dreamStops
  else if landscape = "Ocean" then some oceanStops
  else if landscape = "Desert" then some desertStops
  else if landscape = "Space" then some spaceStops
  else if landscape = "Rainbow" then some rainbowStops
  else if landscape = "Fire" then some fireStops
  else if landscape = "Ice" then some iceStops
  else if landscape = "Inferno" then some infernoStops
  else none

/-- The normalized value `iter_map / max_iter`.  When `max_iter = 0`
every field entry is `0` and NumPy's `0 / 0` is NaN, modeled as `none`. -/
def normalizeIter (maxIter it : ℕ) : Option ℚ :=
  if maxIter = 0 then none else some ((it : ℚ) / (maxIter : ℚ))

/-- The mask test of bracket `(s₁, s₂)`:
`(normalized >= levels[i]) & (normalized < levels[i+1])`.
Both comparisons are false on NaN. -/
def bcond (b : Stop × Stop) (t? : Option ℚ) : Bool :=
  match t? with
  | none => false
  | some t => decide (b.1.level ≤ t) && decide (t < b.2.level)

def lerpCh (a b frac : ℚ) : ℚ := a + frac * (b - a)

/-- Truncation of the interpolated float channel into the `uint8` array. -/
def toByte (q : ℚ) : ℕ := (⌊q⌋).toNat

/-- The color written for a pixel matched by bracket `(s₁, s₂)`:
`cmaps[i] + frac[:, np.newaxis] * (cmaps[i+1] - cmaps[i])` with
`frac = (normalized - levels[i]) / (levels[i+1] - levels[i])`. -/
def bval (b : Stop × Stop) (t? : Option ℚ) : ℕ × ℕ × ℕ :=
  match t? with
  | none => (0, 0, 0)
  | some t =>
    let frac := (t - b.1.level) / (b.2.level - b.1.level)
    (toByte (lerpCh b.1.r b.2.r frac), toByte (lerpCh b.1.g b.2.g frac),
     toByte (lerpCh b.1.b b.2.b frac))

/-- The consecutive bracket pairs `(levels[i], levels[i+1])` iterated by
`for i in range(len(levels) - 1)`. -/
def brackets (pal : List Stop) : List (Stop × Stop) := pal.zip pal.tail

/-- The color of one pixel after the bracket loop: the `colors` array is
zero-initialized and each bracket writes into its mask. -/
def pixColor (pal : List Stop) (t? : Option ℚ) : ℕ × ℕ × ℕ :=
  (brackets pal).foldl (fun acc b => if bcond b t? then bval b t? else acc) (0, 0, 0)

/-- The RGB raster produced by `_color_fractal` for a recognized
landscape; `none` models the `UnboundLocalError` on an unrecognized one.
(The optional nightmare post-processing that follows draws unseeded
random noise and is outside this deterministic model.) -/
def colorFractal (landscape : String) (maxIter : ℕ) (iterMap : ℕ → ℕ → ℕ) :
    Option (ℕ → ℕ → ℕ × ℕ × ℕ) :=
  (lookupPalette landscape).map
    (fun pal => fun py px => pixColor pal (normalizeIter maxIter (iterMap py px)))

/-! ### Swirl filter geometry (`_apply_filter` lines 769-787, `_swirl_numpy` lines 796-830)

Polar decomposition relative to the image center `(cx, cy) = (w/2, h/2)`:
`r = np.sqrt((xx-cx)**2 + (yy-cy)**2)` and
`theta = np.arctan2(yy-cy, xx-cx)`.  `np.arctan2(y', x')` equals
`Complex.arg (x' + i y')` (both have range `(-π, π]` and both send the
origin to `0`).  The strength constant is lifted out as a parameter; the
source pins it to `2.0 if nightmare_mode else 1.0` on the SciPy path and
to `2.0` on the NumPy fallback path. -/

noncomputable def rr (w h y x : ℕ) : ℝ :=
  Real.sqrt (((x : ℝ) - (w : ℝ) / 2) ^ 2 + ((y : ℝ) - (h : ℝ) / 2) ^ 2)

noncomputable def thetaAt (w h y x : ℕ) : ℝ :=
  Complex.arg ⟨(x : ℝ) - (w : ℝ) / 2, (y : ℝ) - (h : ℝ) / 2⟩

/-- The angular perturbation of the SciPy path:
`strength * np.exp(-r / (w / 5))` with `strength = 2.0` in nightmare
mode and `1.0` otherwise. -/
noncomputable def scipySwirlOffset (nightmare : Bool) (w h y x : ℕ) : ℝ :=
  (if nightmare then (2 : ℝ) else 1) * Real.exp (-(rr w h y x) / ((w : ℝ) / 5))

/-- The angular perturbation of the NumPy fallback with the strength
constant as a parameter: `strength * np.exp(-r / (max(w, h) / 5.0))`. -/
noncomputable def numpySwirlAngle (strength : ℝ) (w h y x : ℕ) : ℝ :=
  strength * Real.exp (-(rr w h y x) / (((max w h : ℕ) : ℝ) / 5))

/-- The angular perturbation the NumPy fallback actually applies
(`strength = 2.0` is hardcoded at line 820). -/
noncomputable def numpySwirlOffset (w h y x : ℕ) : ℝ := numpySwirlAngle 2 w h y x

/-- The SciPy-path warped angle with the strength constant as parameter:
`theta = np.arctan2(yy-cy, xx-cx) + strength * np.exp(-r / (w / 5))`. -/
noncomputable def scipyTheta (strength : ℝ) (w h y x : ℕ) : ℝ :=
  thetaAt w h y x + strength * Real.exp (-(rr w h y x) / ((w : ℝ) / 5))

/-- SciPy-path sampling abscissa `x_new = cx + r * np.cos(theta)`. -/
noncomputable def scipyXnew (strength : ℝ) (w h y x : ℕ) : ℝ :=
  (w : ℝ) / 2 + rr w h y x * Real.cos (scipyTheta strength w h y x)

/-- SciPy-path sampling ordinate `y_new = cy + r * np.sin(theta)`. -/
noncomputable def scipyYnew (strength : ℝ) (w h y x : ℕ) : ℝ :=
  (h : ℝ) / 2 + rr w h y x * Real.sin (scipyTheta strength w h y x)

/-- Clamp an integer sample index into `[0, n-1]` (the edge extension of
`mode='nearest'`, and `np.clip(·, 0, n - 1)` on the fallback path). -/
def clampIdx (n : ℕ) (i : ℤ) : ℕ := (min (max i 0) ((n : ℤ) - 1)).toNat

/-- Bilinear sampling (`scipy.ndimage.map_coordinates` with `order=1`,
`mode='nearest'`) of one channel at real coordinates `(yf, xf)`. -/
noncomputable def bilinSample (img : ℕ → ℕ → ℝ) (h w : ℕ) (yf xf : ℝ) : ℝ :=
  let y0 : ℤ := ⌊yf⌋
  let x0 : ℤ := ⌊xf⌋
  let fy : ℝ := yf - (y0 : ℝ)
  let fx : ℝ := xf - (x0 : ℝ)
  (1 - fy) * (1 - fx) * img (clampIdx h y0) (clampIdx w x0) +
    (1 - fy) * fx * img (clampIdx h y0) (clampIdx w (x0 + 1)) +
    fy * (1 - fx) * img (clampIdx h (y0 + 1)) (clampIdx w x0) +
    fy * fx * img (clampIdx h (y0 + 1)) (clampIdx w (x0 + 1))

/-- One channel of the SciPy swirl path, strength lifted as a parameter:
`arr[:, :, c] = map_coordinates(arr[:, :, c], [y_new, x_new], order=1, mode='nearest')`. -/
noncomputable def scipySwirlChannel (strength : ℝ) (img : ℕ → ℕ → ℝ) (w h : ℕ) :
    ℕ → ℕ → ℝ :=
  fun y x => bilinSample img h w (scipyYnew strength w h y x) (scipyXnew strength w h y x)

/-- The SciPy swirl as instantiated by the source:
`strength = 2.0 if self.nightmare_mode.get() else 1.0`. -/
noncomputable def scipySwirl (nightmare : Bool) (img : ℕ → ℕ → ℝ) (w h : ℕ) :
    ℕ → ℕ → ℝ :=
  scipySwirlChannel (if nightmare then 2 else 1) img w h

/-- Truncation toward zero, the semantics of `.astype(int)` on floats. -/
noncomputable def truncInt (r : ℝ) : ℤ := if 0 ≤ r then ⌊r⌋ else ⌈r⌉

/-- NumPy fallback sampling abscissa before truncation and clipping:
`cx + r * np.cos(theta + swirl_angle)`. -/
noncomputable def numpyXnew (strength : ℝ) (w h y x : ℕ) : ℝ :=
  (w : ℝ) / 2 + rr w h y x * Real.cos (thetaAt w h y x + numpySwirlAngle strength w h y x)

/-- NumPy fallback sampling ordinate before truncation and clipping. -/
noncomputable def numpyYnew (strength : ℝ) (w h y x : ℕ) : ℝ :=
  (h : ℝ) / 2 + rr w h y x * Real.sin (thetaAt w h y x + numpySwirlAngle strength w h y x)

/-- One channel of the NumPy fallback swirl (`swirled_arr = arr[y_new, x_new]`
with truncated, clipped nearest-neighbor indices), strength lifted as a
parameter.  The branch taken when `h * w` exceeds the 2-megapixel budget
recursively swirls a LANCZOS-downscaled copy and upscales the result;
that resampling is an external PIL primitive and is not modeled — this
definition embeds the direct (≤ 2 MP) path. -/
noncomputable def numpySwirlChannel (strength : ℝ) (img : ℕ → ℕ → ℝ) (w h : ℕ) :
    ℕ → ℕ → ℝ :=
  fun y x =>
    img (clampIdx h (truncInt (numpyYnew strength w h y x)))
      (clampIdx w (truncInt (numpyXnew strength w h y x)))

/-- The NumPy fallback swirl as instantiated by the source (`strength = 2.0`). -/
noncomputable def numpySwirl (img : ℕ → ℕ → ℝ) (w h : ℕ) : ℕ → ℕ → ℝ :=
  numpySwirlChannel 2 img w h

/-! ### Compositor (`generate_fractal`, lines 440-457)

PIL's `Image.paste(src, (0, 0), mask)` with an RGBA mask blends every
band through the mask's alpha with the fixed-point macro
`MULDIV255(v, m) = (t := v * m + 128; ((t >> 8) + t) >> 8)`; pasting
without a mask overwrites.  All layers are resized to the fractal's
resolution before compositing (the LANCZOS resize itself is an external
PIL primitive, so background and sketch enter the model already sized). -/

structure RGBA where
  r : ℕ
  g : ℕ
  b : ℕ
  a : ℕ
deriving DecidableEq

def muldiv255 (v m : ℕ) : ℕ := ((v * m + 128) / 256 + (v * m + 128)) / 256

/-- One channel of a masked paste: `BLEND(mask, dest, src)`. -/
def blendCh (d s m : ℕ) : ℕ := muldiv255 d (255 - m) + muldiv255 s m

/-- A masked paste of one pixel, the mask being the source alpha band. -/
def blendPix (d s : RGBA) : RGBA :=
  ⟨blendCh d.r s.r s.a, blendCh d.g s.g s.a, blendCh d.b s.b s.a, blendCh d.a s.a s.a⟩

/-- `img.convert('RGBA')` on an RGB raster: alpha becomes 255. -/
def toRGBA (p : ℕ × ℕ × ℕ) : RGBA := ⟨p.1, p.2.1, p.2.2, 255⟩

/-- The compositing stage: start from a transparent canvas, overwrite
with the background when present (paste without mask), paste the fractal
converted to RGBA using its own (fully opaque) alpha as mask, then, when
weave mode is on and a sketch exists, paste the sketch masked by its own
alpha. -/
def compositeFinal (fr : ℕ → ℕ → ℕ × ℕ × ℕ) (bg sk : Option (ℕ → ℕ → RGBA))
    (weave : Bool) : ℕ → ℕ → RGBA :=
  fun y x =>
    let base : RGBA := match bg with
      | some b => b y x
      | none => ⟨0, 0, 0, 0⟩
    let withFr := blendPix base (toRGBA (fr y x))
    match weave, sk with
    | true, some s => blendPix withFr (s y x)
    | _, _ => withFr

/-- `ImageOps.invert(img.convert('RGB'))`: each channel becomes `255 - c`. -/
def invertRGB (img : ℕ → ℕ → ℕ × ℕ × ℕ) : ℕ → ℕ → ℕ × ℕ × ℕ :=
  fun y x => (255 - (img y x).1, 255 - (img y x).2.1, 255 - (img y x).2.2)

/-! ### The render entry point (`generate_fractal`, lines 398-463)

Outcomes of one render call, in source order: non-positive dimensions
abort the call with no output (the guard at line 416 logs and returns);
an unrecognized fractal family raises `ValueError`; an unrecognized
landscape raises `UnboundLocalError` inside `_color_fractal`; otherwise
the composited RGBA raster is produced.  The filter stage is passed in
as an abstract total function `filt` because filters other than the
identity (`"None"`) are either external PIL kernels or the swirl, whose
real-valued geometry is modeled separately above; no filter can fail. -/

inductive RenderResult where
  | invalidDims : RenderResult
  | invalidFamily : RenderResult
  | unboundPalette : RenderResult
  | ok : (ℕ → ℕ → RGBA) → RenderResult

def render (w h : ℤ) (zoom cx cy : ℚ) (family : String) (power maxIter : ℕ)
    (juliaC : Cplx) (landscape : String)
    (filt : (ℕ → ℕ → ℕ × ℕ × ℕ) → ℕ → ℕ → ℕ × ℕ × ℕ) (invert : Bool)
    (bg sk : Option (ℕ → ℕ → RGBA)) (weave : Bool) : RenderResult :=
  if w ≤ 0 ∨ h ≤ 0 then .invalidDims
  else
    match genFractalMap ⟨w.toNat, h.toNat, zoom, cx, cy⟩ family power maxIter juliaC with
    | none => .invalidFamily
    | some iterM =>
      match lookupPalette landscape with
      | none => .unboundPalette
      | some pal =>
        let colors := fun py px => pixColor pal (normalizeIter maxIter (iterM py px))
        let filtered := filt colors
        let inverted := if invert then invertRGB filtered else filtered
        .ok (compositeFinal inverted bg sk weave)

/-! ### Animation sequencer (`export_animation`, lines 986-1055)

Each frame re-runs the map, color, filter, invert and composite steps
at zoom `initial_zoom * (1 + i * 0.2)` — but, unlike `generate_fractal`
(which converts the color array with `Image.fromarray` at line 431),
`export_animation` feeds the NumPy array returned by `_color_fractal`
straight into `_apply_filter` and then calls PIL-only methods on the
result.  A NumPy array has no `.filter` or `.convert`, so every filter
branch except `"Swirl"` (the one branch that rebuilds a PIL image via
`np.array`/`Image.fromarray` or `_swirl_numpy`) raises
`AttributeError` on the very first frame; the exception handler at line
1049 then aborts the export with zero frames, and the zoom reset at
line 1043 is skipped (the crash happens at `i = 0`, where the zoom had
just been set to `initial_zoom * 1.0`).  The representation flowing
through the frame loop is therefore modeled as a tagged value: a raw
NumPy array or a materialized PIL image. -/

/-- The per-frame image produced by the success path of the pipeline
(shared by `generate_fractal` and each `export_animation` frame, which
duplicate the same map → color → filter → invert → composite steps). -/
def framePipeline (w h : ℤ) (zoom cx cy : ℚ) (family : String) (power maxIter : ℕ)
    (juliaC : Cplx) (pal : List Stop)
    (filt : (ℕ → ℕ → ℕ × ℕ × ℕ) → ℕ → ℕ → ℕ × ℕ × ℕ) (invert : Bool)
    (bg sk : Option (ℕ → ℕ → RGBA)) (weave : Bool) : ℕ → ℕ → RGBA :=
  let iterM := fun py px => escapeVal family power maxIter juliaC
    ((⟨w.toNat, h.toNat, zoom, cx, cy⟩ : ViewWindow).planeCoord px py)
  let colors := fun py px => pixColor pal (normalizeIter maxIter (iterM py px))
  let filtered := filt colors
  let inverted := if invert then invertRGB filtered else filtered
  compositeFinal inverted bg sk weave

/-! ## Supporting lemmas -/

theorem Cplx.normSq_mul (a b : Cplx) : (a.mul b).normSq = a.normSq * b.normSq := by
  simp only [Cplx.mul, Cplx.normSq]
  ring

theorem Cplx.normSq_pow (a : Cplx) (n : ℕ) : (a.pow n).normSq = a.normSq ^ n := by
  induction n with
  | zero => simp [Cplx.pow, Cplx.normSq]
  | succ n ih => simp [Cplx.pow, Cplx.normSq_mul, ih, pow_succ]

theorem Cplx.normSq_add_le (a b : Cplx) : (a.add b).normSq ≤ 2 * (a.normSq + b.normSq) := by
  simp only [Cplx.add, Cplx.normSq]
  nlinarith [sq_nonneg (a.re - b.re), sq_nonneg (a.im - b.im)]

theorem engineIter_succ (family : String) (power : ℕ) (c : Cplx) (maxIter : ℕ)
    (z0 : Cplx) (n : ℕ) :
    engineIter family power c maxIter z0 (n + 1) =
      engineStep family power c (engineIter family power c maxIter z0 n) n := by
  simp [engineIter, List.range_succ]

theorem foldAssign_keep (bs : List (Stop × Stop)) (t? : Option ℚ) (init : ℕ × ℕ × ℕ)
    (h : ∀ b ∈ bs, bcond b t? = false) :
    bs.foldl (fun acc b => if bcond b t? then bval b t? else acc) init = init := by
  induction bs generalizing init with
  | nil => rfl
  | cons b rest ih =>
    simp only [List.foldl_cons, h b (List.mem_cons_self b rest), Bool.false_eq_true,
      if_false]
    exact ih init fun b' hb' => h b' (List.mem_cons_of_mem _ hb')

theorem foldAssign_unique (bs : List (Stop × Stop)) (t? : Option ℚ) (init : ℕ × ℕ × ℕ)
    (j : ℕ) (bj : Stop × Stop) (hj : bs[j]? = some bj) (hcond : bcond bj t? = true)
    (hdisj : ∀ k bk, bs[k]? = some bk → k ≠ j → bcond bk t? = false) :
    bs.foldl (fun acc b => if bcond b t? then bval b t? else acc) init = bval bj t? := by
  induction bs generalizing init j with
  | nil => simp at hj
  | cons b rest ih =>
    cases j with
    | zero =>
      rw [List.getElem?_cons_zero, Option.some_inj] at hj
      subst hj
      simp only [List.foldl_cons, hcond, if_true]
      refine foldAssign_keep rest t? _ fun b' hb' => ?_
      obtain ⟨k, hk, hEq⟩ := List.mem_iff_getElem.mp hb'
      refine hdisj (k + 1) b' ?_ (by omega)
      rw [List.getElem?_cons_succ]
      exact hEq ▸ List.getElem?_eq_getElem hk
    | succ j' =>
      have hb : bcond b t? = false := hdisj 0 b List.getElem?_cons_zero (by omega)
      simp only [List.foldl_cons, hb, Bool.false_eq_true, if_false]
      rw [List.getElem?_cons_succ] at hj
      exact ih init j' hj fun k bk hk hkj =>
        hdisj (k + 1) bk (by rw [List.getElem?_cons_succ]; exact hk) (by omega)

theorem pixColor_none (pal : List Stop) : pixColor pal none = (0, 0, 0) :=
  foldAssign_keep _ _ _ fun _ _ => rfl

theorem pixColor_of_forall_le (pal : List Stop) (t : ℚ)
    (hle : ∀ s ∈ pal.tail, s.level ≤ t) : pixColor pal (some t) = (0, 0, 0) := by
  refine foldAssign_keep _ _ _ fun b hb => ?_
  have h2 : b.2 ∈ pal.tail := (List.of_mem_zip hb).2
  have : ¬ t < b.2.level := not_lt.mpr (hle b.2 h2)
  simp [bcond, this]

theorem brackets_getElem? (pal : List Stop) (k : ℕ) (bk : Stop × Stop)
    (hk : (brackets pal)[k]? = some bk) :
    pal[k]? = some bk.1 ∧ pal[k + 1]? = some bk.2 := by
  unfold brackets at hk
  rw [List.getElem?_zip_eq_some] at hk
  refine ⟨hk.1, ?_⟩
  rw [← List.getElem?_tail]
  exact hk.2

theorem pixColor_bracket (pal : List Stop)
    (hsort : pal.Pairwise (fun a b => a.level < b.level)) (t : ℚ) (j : ℕ)
    (bj : Stop × Stop) (hj : (brackets pal)[j]? = some bj) (h1 : bj.1.level ≤ t)
    (h2 : t < bj.2.level) : pixColor pal (some t) = bval bj (some t) := by
  have hmono : ∀ (i k : ℕ) (si sk : Stop), pal[i]? = some si → pal[k]? = some sk →
      i < k → si.level < sk.level := by
    intro i k si sk hi hk hik
    obtain ⟨hi', hie⟩ := List.getElem?_eq_some.mp hi
    obtain ⟨hk', hke⟩ := List.getElem?_eq_some.mp hk
    have := List.pairwise_iff_getElem.mp hsort i k hi' hk' hik
    rwa [hie, hke] at this
  refine foldAssign_unique _ _ _ j bj hj (by simp [bcond, h1, h2]) ?_
  intro k bk hk hkj
  obtain ⟨hjl, hjr⟩ := brackets_getElem? pal j bj hj
  obtain ⟨hkl, hkr⟩ := brackets_getElem? pal k bk hk
  rcases lt_or_gt_of_ne hkj with hlt | hgt
  · -- earlier bracket: its upper level is at most bj's lower level, hence ≤ t
    have hup : bk.2.level ≤ bj.1.level := by
      rcases Nat.lt_or_ge (k + 1) j with hkj' | hkj'
      · exact le_of_lt (hmono (k + 1) j bk.2 bj.1 hkr hjl hkj')
      · have : k + 1 = j := by omega
        subst this
        rw [hkr] at hjl
        rw [Option.some_inj.mp hjl]
    have : ¬ t < bk.2.level := not_lt.mpr (le_trans hup h1)
    simp [bcond, this]
  · -- later bracket: its lower level is at least bj's upper level, hence > t
    have hlo : bj.2.level ≤ bk.1.level := by
      rcases Nat.lt_or_ge (j + 1) k with hkj' | hkj'
      · exact le_of_lt (hmono (j + 1) k bj.2 bk.1 hjr hkl hkj')
      · have : j + 1 = k := by omega
        subst this
        rw [hjr] at hkl
        rw [Option.some_inj.mp hkl]
    have : ¬ bk.1.level ≤ t := not_le.mpr (lt_of_lt_of_le h2 hlo)
    simp [bcond, this]

set_option maxHeartbeats 1000000 in
theorem lookupPalette_sorted (landscape : String) (pal : List Stop)
    (h : lookupPalette landscape = some pal) :
    pal.Pairwise (fun a b => a.level < b.level) ∧ ∀ s ∈ pal, s.level ≤ 1 := by
  unfold lookupPalette at h
  split_ifs at h <;>
    (simp only [Option.some_inj] at h
     subst h
     refine ⟨?_, ?_⟩ <;>
       norm_num [forestStops, cityStops, dreamStops, oceanStops, desertStops,
         spaceStops, rainbowStops, fireStops, iceStops, infernoStops,
         List.pairwise_cons, List.forall_mem_cons])

theorem lookupPalette_of_mem (landscape : String) (h : landscape ∈ paletteNames) :
    ∃ pal, lookupPalette landscape = some pal := by
  simp only [paletteNames, List.mem_cons, List.not_mem_nil, or_false] at h
  rcases h with rfl | rfl | rfl | rfl | rfl | rfl | rfl | rfl | rfl | rfl <;>
    exact ⟨_, rfl⟩

/-! ## Claim theorems -/

/-- C3: the Plane Mapper's x formula, ranges and centering are as
specified, but the claimed y inversion does not happen: the code builds
`y = np.linspace(y_min, y_max, height)`, so pixel row `py = 0` receives
`y_min`, not the specified `y_max - py/(height-1)*(y_max-y_min)`.  At
the 2×2 window with zoom 1 centered on the origin, the code assigns row
0 the imaginary part `-5/2` while the specification demands `5/2`. -/
theorem c3_plane_mapper_y_not_inverted :
    (ViewWindow.mk 2 2 1 0 0).planeY 0 = -(5 / 2) ∧
    (ViewWindow.mk 2 2 1 0 0).specPlaneY 0 = 5 / 2 ∧
    (ViewWindow.mk 2 2 1 0 0).planeY 0 ≠ (ViewWindow.mk 2 2 1 0 0).specPlaneY 0 ∧
    (ViewWindow.mk 2 2 1 0 0).planeY 1 = 5 / 2 ∧
    (ViewWindow.mk 2 2 1 0 0).planeX 0 = -(5 / 2) ∧
    (ViewWindow.mk 2 2 1 0 0).planeX 1 = 5 / 2 := by
  refine ⟨?_, ?_, ?_, ?_, ?_, ?_⟩ <;>
    norm_num [ViewWindow.planeY, ViewWindow.planeX, ViewWindow.specPlaneY, linspace,
      ViewWindow.yMin, ViewWindow.yMax, ViewWindow.xMin, ViewWindow.xMax,
      ViewWindow.yRange, ViewWindow.xRange, ViewWindow.aspectRatio]

/-- C5 counterexample: the two swirl paths do not compute the same warp
geometry.  On a 2×2 image with nightmare mode off, at pixel (0, 0), the
SciPy path perturbs the angle by `1.0 * exp(-r/(w/5))` while the NumPy
fallback perturbs it by `2.0 * exp(-r/(max(w,h)/5))`; with `w = h = 2`
the exponentials agree and the strengths differ, so the offsets differ. -/
theorem c5_counterexample : numpySwirlOffset 2 2 0 0 ≠ scipySwirlOffset false 2 2 0 0 := by
  have hmax : ((max 2 2 : ℕ) : ℝ) = 2 := by norm_num
  simp only [numpySwirlOffset, numpySwirlAngle, scipySwirlOffset, Bool.false_eq_true,
    if_false, hmax]
  intro hc
  have hpos := Real.exp_pos (-(rr 2 2 0 0) / ((2 : ℝ) / 5))
  nlinarith [hpos]

/-- C5 amended: the SciPy path's angular perturbation is
`strength * exp(-r/(w/5))` with strength 2.0 in nightmare mode and 1.0
otherwise, while the NumPy fallback always perturbs by
`2.0 * exp(-r/(max(w,h)/5))`; the two warp geometries coincide exactly
when nightmare mode is active and the image is at least as wide as it is
tall (so that `max(w, h) = w`). -/
theorem c5_amended_swirl_geometry (nightmare : Bool) (w h y x : ℕ)
    (hn : nightmare = true) (hwh : h ≤ w) :
    scipySwirlOffset nightmare w h y x = numpySwirlOffset w h y x := by
  subst hn
  simp only [scipySwirlOffset, if_true, numpySwirlOffset, numpySwirlAngle]
  rw [Nat.max_eq_left hwh]

theorem c5_witness : scipySwirlOffset true 3 2 0 0 = numpySwirlOffset 3 2 0 0 :=
  c5_amended_swirl_geometry true 3 2 0 0 rfl (by decide)

/-- C10: for a landscape name outside the ten built-ins the palette
mapper produces neither a raster nor a typed error: the `levels`/`cmaps`
chain has no default case, so the bracket loop raises
`UnboundLocalError` (embedded as `none`), and `lookupPalette` itself has
no binding for the name. -/
theorem c10_unrecognized_palette (landscape : String) (h : landscape ∉ paletteNames)
    (maxIter : ℕ) (iterMap : ℕ → ℕ → ℕ) :
    lookupPalette landscape = none ∧ colorFractal landscape maxIter iterMap = none := by
  simp only [paletteNames, List.mem_cons, List.not_mem_nil, or_false, not_or] at h
  obtain ⟨h1, h2, h3, h4, h5, h6, h7, h8, h9, h10⟩ := h
  have hl : lookupPalette landscape = none := by
    simp [lookupPalette, h1, h2, h3, h4, h5, h6, h7, h8, h9, h10]
  exact ⟨hl, by simp [colorFractal, hl]⟩

theorem c10_witness :
    "Plasma" ∉ paletteNames ∧ colorFractal "Plasma" 5 (fun _ _ => 0) = none :=
  ⟨by decide, (c10_unrecognized_palette "Plasma" (by decide) 5 (fun _ _ => 0)).2⟩

/-- C7 counterexample: with `max_iter = 0` the palette mapper does not
define `t = 0`; it divides `0 / 0`, producing NaN (modeled `none`), every
bracket test fails, and the pixel keeps the zero-initialized color
`(0,0,0)` — whereas `t = 0` would select the first Fire stop `(50,0,0)`. -/
theorem c7_counterexample :
    pixColor fireStops (normalizeIter 0 0) = (0, 0, 0) ∧
    pixColor fireStops (some 0) = (50, 0, 0) ∧
    pixColor fireStops (normalizeIter 0 0) ≠ pixColor fireStops (some 0) := by
  have h0 : normalizeIter 0 0 = none := rfl
  have h1 : pixColor fireStops none = (0, 0, 0) := pixColor_none fireStops
  have h2 : pixColor fireStops (some 0) = (50, 0, 0) := by
    norm_num [pixColor, brackets, fireStops, bcond, bval, toByte, lerpCh]
    decide
  refine ⟨h0 ▸ h1, h2, ?_⟩
  rw [h0, h1, h2]
  decide

/-- C7 amended: when `max_iter = 0` the normalized value is NaN (`0/0`),
not `0`; every bracket comparison with NaN is false, so for every
recognized landscape the mapper still returns a well-defined raster —
all pixels zero-initialized black `(0,0,0)`. -/
theorem c7_amended_maxiter_zero (landscape : String) (pal : List Stop)
    (hpal : lookupPalette landscape = some pal) (iterMap : ℕ → ℕ → ℕ) (py px : ℕ) :
    normalizeIter 0 (iterMap py px) = none ∧
    (colorFractal landscape 0 iterMap).map (fun img => img py px) = some (0, 0, 0) := by
  refine ⟨rfl, ?_⟩
  have hn : normalizeIter 0 (iterMap py px) = none := rfl
  simp [colorFractal, hpal, hn, pixColor_none]

theorem c7_witness :
    normalizeIter 0 7 = none ∧
    (colorFractal "Fire" 0 (fun _ _ => 7)).map (fun img => img 0 0) = some (0, 0, 0) :=
  c7_amended_maxiter_zero "Fire" fireStops rfl (fun _ _ => 7) 0 0

theorem muldiv255_zero (v : ℕ) : muldiv255 v 0 = 0 := by
  simp [muldiv255]

theorem muldiv255_full (v : ℕ) (hv : v ≤ 255) : muldiv255 v 255 = v := by
  simp only [muldiv255]
  omega

theorem blendCh_mask_zero (d s : ℕ) (hd : d ≤ 255) : blendCh d s 0 = d := by
  simp [blendCh, muldiv255_zero, muldiv255_full d hd]

theorem blendCh_mask_full (d s : ℕ) (hs : s ≤ 255) : blendCh d s 255 = s := by
  simp [blendCh, muldiv255_zero, muldiv255_full s hs]

theorem blendPix_transparent (d s : RGBA) (hsa : s.a = 0) (hd : d.r ≤ 255 ∧ d.g ≤ 255 ∧ d.b ≤ 255 ∧ d.a ≤ 255) :
    blendPix d s = d := by
  obtain ⟨h1, h2, h3, h4⟩ := hd
  simp [blendPix, hsa, blendCh_mask_zero _ _ h1, blendCh_mask_zero _ _ h2,
    blendCh_mask_zero _ _ h3, blendCh_mask_zero _ _ h4]

theorem blendPix_opaque (d s : RGBA) (hsa : s.a = 255)
    (hs : s.r ≤ 255 ∧ s.g ≤ 255 ∧ s.b ≤ 255) : blendPix d s = s := by
  obtain ⟨h1, h2, h3⟩ := hs
  rcases s with ⟨sr, sg, sb, sa⟩
  simp only at h1 h2 h3 hsa
  subst hsa
  simp [blendPix, blendCh_mask_full _ _ h1, blendCh_mask_full _ _ h2,
    blendCh_mask_full _ _ h3, blendCh_mask_full _ _ (le_refl 255)]

/-- C9: over any fractal raster (with byte-range channels) and any
background, pasting a fully transparent sketch layer produces exactly
the composite obtained with no sketch layer at all, and pasting a fully
opaque sketch layer (byte-range channels) reproduces the sketch layer's
pixels exactly. -/
theorem c9_compositor (fr : ℕ → ℕ → ℕ × ℕ × ℕ) (bg : Option (ℕ → ℕ → RGBA))
    (sk : ℕ → ℕ → RGBA)
    (hfr : ∀ y x, (fr y x).1 ≤ 255 ∧ (fr y x).2.1 ≤ 255 ∧ (fr y x).2.2 ≤ 255)
    (hsk : ∀ y x, (sk y x).r ≤ 255 ∧ (sk y x).g ≤ 255 ∧ (sk y x).b ≤ 255) :
    ((∀ y x, (sk y x).a = 0) → ∀ y x,
      compositeFinal fr bg (some sk) true y x = compositeFinal fr bg none true y x) ∧
    ((∀ y x, (sk y x).a = 255) → ∀ y x,
      compositeFinal fr bg (some sk) true y x = sk y x) := by
  have hwithFr : ∀ (base : RGBA) y x,
      blendPix base (toRGBA (fr y x)) = toRGBA (fr y x) := by
    intro base y x
    exact blendPix_opaque _ _ rfl ⟨(hfr y x).1, (hfr y x).2.1, (hfr y x).2.2⟩
  constructor
  · intro htrans y x
    simp only [compositeFinal, hwithFr]
    exact blendPix_transparent _ _ (htrans y x)
      ⟨(hfr y x).1, (hfr y x).2.1, (hfr y x).2.2, le_refl 255⟩
  · intro hsolid y x
    simp only [compositeFinal, hwithFr]
    exact blendPix_opaque _ _ (hsolid y x) (hsk y x)

theorem c9_witness :
    compositeFinal (fun _ _ => (10, 20, 30)) none (some fun _ _ => RGBA.mk 1 2 3 255)
        true 0 0 = RGBA.mk 1 2 3 255 :=
  (c9_compositor (fun _ _ => (10, 20, 30)) none (fun _ _ => RGBA.mk 1 2 3 255)
      (by intro y x; norm_num)
      (by intro y x; norm_num)).2 (fun _ _ => rfl) 0 0

theorem engineStep_pos (family : String) (power : ℕ) (c : Cplx) (s : PixState)
    (i : ℕ) (hd : 4 < (((preT family s.z).pow power).add c).normSq) :
    engineStep family power c s i =
      ⟨Cplx.ofQ 2, false, if s.m then i else s.it⟩ := by
  simp [engineStep, decide_eq_true hd]

theorem engineStep_neg (family : String) (power : ℕ) (c : Cplx) (s : PixState)
    (i : ℕ) (hd : ¬ 4 < (((preT family s.z).pow power).add c).normSq) :
    engineStep family power c s i = ⟨((preT family s.z).pow power).add c, s.m, s.it⟩ := by
  simp [engineStep, decide_eq_false hd]

theorem engineStep_z_bound (family : String) (power : ℕ) (c : Cplx) (s : PixState)
    (i : ℕ) : ((engineStep family power c s i).z).normSq ≤ 4 := by
  by_cases hd : 4 < (((preT family s.z).pow power).add c).normSq
  · rw [engineStep_pos family power c s i hd]
    norm_num [Cplx.ofQ, Cplx.normSq]
  · rw [engineStep_neg family power c s i hd]
    exact le_of_not_lt hd

theorem engineStep_dead (family : String) (power : ℕ) (c : Cplx) (s : PixState)
    (i : ℕ) (hm : s.m = false) :
    (engineStep family power c s i).it = s.it ∧ (engineStep family power c s i).m = false := by
  by_cases hd : 4 < (((preT family s.z).pow power).add c).normSq
  · rw [engineStep_pos family power c s i hd]
    simp [hm]
  · rw [engineStep_neg family power c s i hd]
    simp [hm]

theorem engineIter_m_it (family : String) (power : ℕ) (c : Cplx) (maxIter : ℕ)
    (z0 : Cplx) (n : ℕ) :
    (engineIter family power c maxIter z0 n).m = true →
      (engineIter family power c maxIter z0 n).it = maxIter := by
  induction n with
  | zero => intro _; rfl
  | succ n ih =>
    intro hm
    rw [engineIter_succ] at hm ⊢
    by_cases hd : 4 <
        (((preT family (engineIter family power c maxIter z0 n).z).pow power).add c).normSq
    · rw [engineStep_pos _ _ _ _ _ hd] at hm
      cases hm
    · rw [engineStep_neg _ _ _ _ _ hd] at hm ⊢
      exact ih hm

theorem engineIter_it_bound (family : String) (power : ℕ) (c : Cplx) (maxIter : ℕ)
    (z0 : Cplx) (n : ℕ) :
    (engineIter family power c maxIter z0 n).it = maxIter ∨
      (engineIter family power c maxIter z0 n).it < n := by
  induction n with
  | zero => left; rfl
  | succ n ih =>
    rw [engineIter_succ]
    by_cases hd : 4 <
        (((preT family (engineIter family power c maxIter z0 n).z).pow power).add c).normSq
    · rw [engineStep_pos _ _ _ _ _ hd]
      by_cases hm : (engineIter family power c maxIter z0 n).m = true
      · right
        simp [hm]
      · simp only [Bool.not_eq_true] at hm
        simp only [hm, Bool.false_eq_true, if_false]
        rcases ih with h | h
        · left; exact h
        · right; omega
    · rw [engineStep_neg _ _ _ _ _ hd]
      rcases ih with h | h
      · left; exact h
      · right
        simp only []
        omega

theorem engineIter_dead_persist (family : String) (power : ℕ) (c : Cplx)
    (maxIter : ℕ) (z0 : Cplx) (n k : ℕ)
    (hm : (engineIter family power c maxIter z0 n).m = false) :
    (engineIter family power c maxIter z0 (n + k)).it =
        (engineIter family power c maxIter z0 n).it ∧
      (engineIter family power c maxIter z0 (n + k)).m = false := by
  induction k with
  | zero => exact ⟨rfl, hm⟩
  | succ k ih =>
    have step := engineStep_dead family power c
      (engineIter family power c maxIter z0 (n + k)) (n + k) ih.2
    rw [show n + (k + 1) = (n + k) + 1 by omega, engineIter_succ]
    exact ⟨step.1.trans ih.1, step.2⟩

/-- C6: engine invariants.  For every family, power, `max_iter`, Julia
constant and pixel coordinate: the recorded field entry lies in
`[0, max_iter]`; once a pixel's mask clears, its recorded value is never
overwritten by later iterations; a pixel whose mask survives `n`
iterations still records `max_iter` (so never-diverging pixels keep
`max_iter`); at the first crossing (mask live, then cleared) the
recorded value is exactly that iteration index; and after every
iteration the iterate `z` is capped to a bounded value
(`normSq z ≤ 4`, i.e. `|z| ≤ 2`), so later exponentiation of diverged
pixels stays finite. -/
theorem c6_engine_invariants (family : String) (power maxIter : ℕ)
    (juliaC coord c z0 : Cplx) :
    (escapeVal family power maxIter juliaC coord ≤ maxIter) ∧
    (∀ n, ((engineIter family power c maxIter z0 (n + 1)).z).normSq ≤ 4) ∧
    (∀ n, (engineIter family power c maxIter z0 n).m = true →
      (engineIter family power c maxIter z0 n).it = maxIter) ∧
    (∀ n k, (engineIter family power c maxIter z0 n).m = false →
      (engineIter family power c maxIter z0 (n + k)).it =
        (engineIter family power c maxIter z0 n).it) ∧
    (∀ n, (engineIter family power c maxIter z0 n).m = true →
      (engineIter family power c maxIter z0 (n + 1)).m = false →
      (engineIter family power c maxIter z0 (n + 1)).it = n) := by
  refine ⟨?_, ?_, ?_, ?_, ?_⟩
  · unfold escapeVal
    rcases engineIter_it_bound family power (initZC family juliaC coord).2 maxIter
      (initZC family juliaC coord).1 maxIter with h | h
    · exact le_of_eq h
    · exact le_of_lt h
  · intro n
    rw [engineIter_succ]
    exact engineStep_z_bound family power c _ n
  · exact engineIter_m_it family power c maxIter z0
  · intro n k hm
    exact (engineIter_dead_persist family power c maxIter z0 n k hm).1
  · intro n hm hm'
    rw [engineIter_succ] at hm' ⊢
    by_cases hd : 4 <
        (((preT family (engineIter family power c maxIter z0 n).z).pow power).add c).normSq
    · rw [engineStep_pos _ _ _ _ _ hd]
      simp [hm]
    · rw [engineStep_neg _ _ _ _ _ hd] at hm'
      rw [hm] at hm'
      cases hm'

theorem c6_witness :
    (engineIter "Mandelbrot" 2 ⟨3, 0⟩ 5 ⟨0, 0⟩ 0).it = 5 ∧
    escapeVal "Mandelbrot" 2 5 ⟨0, 0⟩ ⟨3, 0⟩ ≤ 5 :=
  ⟨(c6_engine_invariants "Mandelbrot" 2 5 ⟨0, 0⟩ ⟨3, 0⟩ ⟨3, 0⟩ ⟨0, 0⟩).2.2.1 0 rfl,
   (c6_engine_invariants "Mandelbrot" 2 5 ⟨0, 0⟩ ⟨3, 0⟩ ⟨3, 0⟩ ⟨0, 0⟩).1⟩

theorem Cplx.normSq_nonneg (a : Cplx) : 0 ≤ a.normSq := by
  simp only [Cplx.normSq]
  nlinarith [sq_nonneg a.re, sq_nonneg a.im]

theorem mandelbrot_small_c (c : Cplx) (hc : c.normSq ≤ 1 / 50) (maxIter : ℕ) :
    ∀ n, (engineIter "Mandelbrot" 2 c maxIter ⟨0, 0⟩ n).m = true ∧
      (engineIter "Mandelbrot" 2 c maxIter ⟨0, 0⟩ n).it = maxIter ∧
      ((engineIter "Mandelbrot" 2 c maxIter ⟨0, 0⟩ n).z).normSq ≤ 1 / 4 := by
  intro n
  induction n with
  | zero =>
    refine ⟨rfl, rfl, ?_⟩
    norm_num [engineIter, Cplx.normSq]
  | succ n ih =>
    obtain ⟨hm, hit, hz⟩ := ih
    have hpre : preT "Mandelbrot" (engineIter "Mandelbrot" 2 c maxIter ⟨0, 0⟩ n).z =
        (engineIter "Mandelbrot" 2 c maxIter ⟨0, 0⟩ n).z := by
      simp [preT]
    have hz2 : (((preT "Mandelbrot" (engineIter "Mandelbrot" 2 c maxIter ⟨0, 0⟩ n).z).pow 2).add
        c).normSq ≤ 1 / 4 := by
      have h1 := Cplx.normSq_add_le
        ((preT "Mandelbrot" (engineIter "Mandelbrot" 2 c maxIter ⟨0, 0⟩ n).z).pow 2) c
      rw [hpre, Cplx.normSq_pow] at h1
      have h0 := Cplx.normSq_nonneg (engineIter "Mandelbrot" 2 c maxIter ⟨0, 0⟩ n).z
      have ha2 : ((engineIter "Mandelbrot" 2 c maxIter ⟨0, 0⟩ n).z.normSq) ^ 2 ≤ 1 / 16 := by
        nlinarith [hz, h0]
      rw [hpre]
      linarith [h1, ha2, hc]
    have hd : ¬ 4 < (((preT "Mandelbrot" (engineIter "Mandelbrot" 2 c maxIter
        ⟨0, 0⟩ n).z).pow 2).add c).normSq := by linarith
    rw [engineIter_succ, engineStep_neg _ _ _ _ _ hd]
    exact ⟨hm, hit, hz2⟩

theorem initZC_mandelbrot (juliaC coord : Cplx) :
    initZC "Mandelbrot" juliaC coord = (⟨0, 0⟩, coord) := by
  simp [initZC]

/-- C1 counterexample: in the end-to-end Mandelbrot render at a 100×100
window, zoom 1, center (0, 0), `max_iter = 100` with the Fire palette,
the center pixel (50, 50) has plane coordinate `5/198 + (5/198)i`, is
interior (records 100, so its normalized value is exactly 1) — and the
palette mapper sends `t = 1` to the zero-initialized black `(0,0,0)`,
not to the final 1.0-stop color `(255,255,200)`: every bracket of the
loop, the last included, is half-open on the right. -/
theorem c1_counterexample :
    (ViewWindow.mk 100 100 1 0 0).planeCoord 50 50 = ⟨5 / 198, 5 / 198⟩ ∧
    escapeVal "Mandelbrot" 2 100 ⟨0, 0⟩ ⟨5 / 198, 5 / 198⟩ = 100 ∧
    normalizeIter 100 (escapeVal "Mandelbrot" 2 100 ⟨0, 0⟩ ⟨5 / 198, 5 / 198⟩) = some 1 ∧
    pixColor fireStops (some 1) = (0, 0, 0) ∧
    ((0, 0, 0) : ℕ × ℕ × ℕ) ≠ (255, 255, 200) := by
  have hcoord : ((⟨5 / 198, 5 / 198⟩ : Cplx)).normSq ≤ 1 / 50 := by
    norm_num [Cplx.normSq]
  have hesc : escapeVal "Mandelbrot" 2 100 ⟨0, 0⟩ ⟨5 / 198, 5 / 198⟩ = 100 := by
    unfold escapeVal
    rw [initZC_mandelbrot]
    exact (mandelbrot_small_c ⟨5 / 198, 5 / 198⟩ hcoord 100 100).2.1
  refine ⟨?_, hesc, ?_, ?_, by decide⟩
  · unfold ViewWindow.planeCoord ViewWindow.planeX ViewWindow.planeY
    rw [Cplx.mk.injEq]
    constructor <;>
      norm_num [linspace, ViewWindow.xMin, ViewWindow.xMax, ViewWindow.yMin,
        ViewWindow.yMax, ViewWindow.xRange, ViewWindow.yRange, ViewWindow.aspectRatio]
  · rw [hesc]
    norm_num [normalizeIter]
  · norm_num [pixColor, brackets, fireStops, bcond, bval, toByte, lerpCh]

/-- C1 amended: the palette mapper interpolates exactly as claimed on
every bracket `levels[i] ≤ t < levels[i+1]` (each channel is the
truncated linear interpolation, as stored into the `uint8` array), but
every bracket is half-open on the right, the last included: the
normalized value `t = 1` of interior pixels (`iteration = max_iter`)
matches no bracket and keeps the zero-initialized color `(0,0,0)`
instead of the final 1.0-stop color; in particular the center pixel of
the end-to-end Mandelbrot render is black. -/
theorem c1_amended_palette_mapping (landscape : String) (pal : List Stop)
    (hpal : lookupPalette landscape = some pal) (maxIter it : ℕ) (hmi : 0 < maxIter) :
    (it = maxIter → pixColor pal (normalizeIter maxIter it) = (0, 0, 0)) ∧
    (∀ t, normalizeIter maxIter it = some t →
      ∀ (j : ℕ) (bj : Stop × Stop), (brackets pal)[j]? = some bj →
        bj.1.level ≤ t → t < bj.2.level →
          pixColor pal (normalizeIter maxIter it) = bval bj (some t)) := by
  obtain ⟨hsort, hle⟩ := lookupPalette_sorted landscape pal hpal
  constructor
  · intro h
    have hne : (maxIter : ℚ) ≠ 0 := Nat.cast_ne_zero.mpr (Nat.pos_iff_ne_zero.mp hmi)
    have hn : normalizeIter maxIter it = some 1 := by
      rw [h]
      simp [normalizeIter, Nat.pos_iff_ne_zero.mp hmi, div_self hne]
    rw [hn]
    exact pixColor_of_forall_le pal 1 fun s hs => hle s (List.mem_of_mem_tail hs)
  · intro t hnt j bj hj h1 h2
    rw [hnt]
    exact pixColor_bracket pal hsort t j bj hj h1 h2

theorem c1_witness : pixColor fireStops (normalizeIter 3 3) = (0, 0, 0) :=
  (c1_amended_palette_mapping "Fire" fireStops rfl 3 3 (by norm_num)).1 rfl

theorem rr_eq_abs (w h y x : ℕ) :
    rr w h y x = Complex.abs ⟨(x : ℝ) - (w : ℝ) / 2, (y : ℝ) - (h : ℝ) / 2⟩ := by
  rw [Complex.abs_apply, Complex.normSq_mk, rr]
  ring_nf

theorem rr_mul_cos (w h y x : ℕ) :
    rr w h y x * Real.cos (thetaAt w h y x) = (x : ℝ) - (w : ℝ) / 2 := by
  rw [rr_eq_abs, thetaAt]
  exact Complex.abs_mul_cos_arg _

theorem rr_mul_sin (w h y x : ℕ) :
    rr w h y x * Real.sin (thetaAt w h y x) = (y : ℝ) - (h : ℝ) / 2 := by
  rw [rr_eq_abs, thetaAt]
  exact Complex.abs_mul_sin_arg _

theorem scipyTheta_zero (w h y x : ℕ) : scipyTheta 0 w h y x = thetaAt w h y x := by
  simp [scipyTheta]

theorem scipyXnew_zero (w h y x : ℕ) : scipyXnew 0 w h y x = (x : ℝ) := by
  rw [scipyXnew, scipyTheta_zero, rr_mul_cos]
  ring

theorem scipyYnew_zero (w h y x : ℕ) : scipyYnew 0 w h y x = (y : ℝ) := by
  rw [scipyYnew, scipyTheta_zero, rr_mul_sin]
  ring

theorem numpyXnew_zero (w h y x : ℕ) : numpyXnew 0 w h y x = (x : ℝ) := by
  rw [numpyXnew, numpySwirlAngle]
  rw [zero_mul, add_zero, rr_mul_cos]
  ring

theorem numpyYnew_zero (w h y x : ℕ) : numpyYnew 0 w h y x = (y : ℝ) := by
  rw [numpyYnew, numpySwirlAngle]
  rw [zero_mul, add_zero, rr_mul_sin]
  ring

theorem clampIdx_of_lt (n y : ℕ) (hy : y < n) : clampIdx n (y : ℤ) = y := by
  simp only [clampIdx]
  omega

theorem truncInt_natCast (x : ℕ) : truncInt (x : ℝ) = (x : ℤ) := by
  rw [truncInt, if_pos (by positivity)]
  exact Int.floor_natCast x

theorem bilinSample_natCast (img : ℕ → ℕ → ℝ) (h w y x : ℕ) (hy : y < h) (hx : x < w) :
    bilinSample img h w (y : ℝ) (x : ℝ) = img y x := by
  simp only [bilinSample, Int.floor_natCast, Int.cast_natCast, sub_self,
    clampIdx_of_lt h y hy, clampIdx_of_lt w x hx]
  ring

/-- C8: with the swirl strength constant set to 0 the warp collapses to
the identity on both paths: the SciPy path samples bilinearly at the
exact source coordinates and the NumPy fallback samples
nearest-neighbor at the exact source indices, so each raster channel is
returned unchanged at every pixel. -/
theorem c8_swirl_strength_zero (img : ℕ → ℕ → ℝ) (w h y x : ℕ)
    (hy : y < h) (hx : x < w) :
    scipySwirlChannel 0 img w h y x = img y x ∧
    numpySwirlChannel 0 img w h y x = img y x := by
  constructor
  · rw [scipySwirlChannel]
    rw [scipyYnew_zero, scipyXnew_zero]
    exact bilinSample_natCast img h w y x hy hx
  · rw [numpySwirlChannel]
    rw [numpyYnew_zero, numpyXnew_zero, truncInt_natCast, truncInt_natCast,
      clampIdx_of_lt h y hy, clampIdx_of_lt w x hx]

theorem c8_witness :
    scipySwirlChannel 0 (fun _ _ => 7) 1 1 0 0 = 7 ∧
    numpySwirlChannel 0 (fun _ _ => 7) 1 1 0 0 = 7 :=
  c8_swirl_strength_zero (fun _ _ => 7) 1 1 0 0 (by decide) (by decide)

theorem genFractalMap_none (v : ViewWindow) (family : String) (power maxIter : ℕ)
    (juliaC : Cplx) (hfam : family ∉ familyNames) :
    genFractalMap v family power maxIter juliaC = none := by
  simp only [familyNames, List.mem_cons, List.not_mem_nil, or_false, not_or] at hfam
  obtain ⟨h1, h2, h3, h4⟩ := hfam
  simp [genFractalMap, h1, h2, h3, h4]

theorem genFractalMap_some (v : ViewWindow) (family : String) (power maxIter : ℕ)
    (juliaC : Cplx) (hfam : family ∈ familyNames) :
    genFractalMap v family power maxIter juliaC =
      some (fun py px => escapeVal family power maxIter juliaC (v.planeCoord px py)) := by
  have hcond : family = "Mandelbrot" ∨ family = "Burning Ship" ∨ family = "Tricorn" ∨
      family = "Julia" := by
    simp only [familyNames, List.mem_cons, List.not_mem_nil, or_false] at hfam
    tauto
  rw [genFractalMap, if_pos hcond]

/-- C4: outcomes of a render call within the data model's validity range
(`zoom > 0` per the ViewWindow invariant — at `zoom = 0` the Python code
raises `ZeroDivisionError`, outside this exact-arithmetic model — and a
built-in palette selection, the UI's closed option menu): non-positive
width or height aborts the render with no output; otherwise an
unrecognized fractal family fails with the typed `ValueError`; otherwise
the render succeeds with a composited RGBA raster. -/
theorem c4_render_outcomes (w h : ℤ) (zoom cx cy : ℚ) (family : String)
    (power maxIter : ℕ) (juliaC : Cplx) (landscape : String)
    (filt : (ℕ → ℕ → ℕ × ℕ × ℕ) → ℕ → ℕ → ℕ × ℕ × ℕ) (invert : Bool)
    (bg sk : Option (ℕ → ℕ → RGBA)) (weave : Bool)
    (hzoom : 0 < zoom) (hland : landscape ∈ paletteNames) :
    ((w ≤ 0 ∨ h ≤ 0) →
      render w h zoom cx cy family power maxIter juliaC landscape filt invert bg sk
        weave = RenderResult.invalidDims) ∧
    (0 < w → 0 < h → family ∉ familyNames →
      render w h zoom cx cy family power maxIter juliaC landscape filt invert bg sk
        weave = RenderResult.invalidFamily) ∧
    (0 < w → 0 < h → family ∈ familyNames →
      ∃ img, render w h zoom cx cy family power maxIter juliaC landscape filt invert bg
        sk weave = RenderResult.ok img) := by
  refine ⟨?_, ?_, ?_⟩
  · intro hwh
    rw [render, if_pos hwh]
  · intro hw hh hfam
    have hne : ¬ (w ≤ 0 ∨ h ≤ 0) := not_or.mpr ⟨not_le.mpr hw, not_le.mpr hh⟩
    have hg := genFractalMap_none ⟨w.toNat, h.toNat, zoom, cx, cy⟩ family power maxIter
      juliaC hfam
    rw [render, if_neg hne, hg]
  · intro hw hh hfam
    have hne : ¬ (w ≤ 0 ∨ h ≤ 0) := not_or.mpr ⟨not_le.mpr hw, not_le.mpr hh⟩
    have hg := genFractalMap_some ⟨w.toNat, h.toNat, zoom, cx, cy⟩ family power maxIter
      juliaC hfam
    obtain ⟨pal, hpal⟩ := lookupPalette_of_mem landscape hland
    refine ⟨framePipeline w h zoom cx cy family power maxIter juliaC pal filt invert
      bg sk weave, ?_⟩
    rw [render, if_neg hne, hg, hpal]
    rfl

theorem c4_witness :
    render (-1) 5 1 0 0 "Mandelbrot" 2 3 ⟨0, 0⟩ "Fire" id false none none false =
      RenderResult.invalidDims :=
  (c4_render_outcomes (-1) 5 1 0 0 "Mandelbrot" 2 3 ⟨0, 0⟩ "Fire" id false none none
      false (by norm_num) (by decide)).1 (Or.inl (by decide))

